import Mathlib

/-!
Shallow embedding of the Nano client notebook (`src/main.ipynb`): key
derivation, address codec, block hashing, link classification and
proof-of-work search/validation, together with proofs of the spec claims.

Python byte strings are modelled as `List Nat` (each element a byte value),
Python text strings as `List Char`, machine integers as `Nat` with explicit
`% 2 ^ 64` where overflow matters, and raised exceptions as `Except Err`.
-/

/-- Errors raised by the notebook's functions (Python raises `Exception`
with a message; we classify the raise sites). -/
inductive Err where
  | IndexOutOfRange
  | InvalidAddressFormat
  | ChecksumMismatch
  | InvalidLinkFormat
  | UnhexlifyError
  | InvalidNBase32
  | BalanceError
  deriving DecidableEq, Repr

instance {ε α : Type} [DecidableEq ε] [DecidableEq α] : DecidableEq (Except ε α) := fun x y =>
  match x, y with
  | .ok a, .ok b =>
    if h : a = b then .isTrue (by rw [h]) else .isFalse (fun he => h (Except.ok.inj he))
  | .error a, .error b =>
    if h : a = b then .isTrue (by rw [h]) else .isFalse (fun he => h (Except.error.inj he))
  | .ok _, .error _ => .isFalse (fun he => Except.noConfusion he)
  | .error _, .ok _ => .isFalse (fun he => Except.noConfusion he)

/-! ## Byte / word utilities -/

def M64 : Nat := 2 ^ 64

/-- Indexing `l[i]` with default 0, for fixed-size word vectors. -/
def lget (l : List Nat) (i : Nat) : Nat := l.getD i 0

/-- The `n` big-endian base-`base` digits of `v` (most significant first). -/
def digitsBE (base : Nat) : Nat → Nat → List Nat
  | 0, _ => []
  | n + 1, v => digitsBE base n (v / base) ++ [v % base]

/-- Value of a most-significant-first digit list in base `base`. -/
def valBE (base : Nat) (l : List Nat) : Nat := l.foldl (fun a d => a * base + d) 0

/-- Big-endian byte value of a byte list (Python `int.from_bytes(_, 'big')`). -/
def beVal (l : List Nat) : Nat := valBE 256 l

/-- Python `int.to_bytes(n, byteorder='big')`: the `n` big-endian base-256 digits of
`v` (for `v < 256 ^ n`, which holds at every call site reachable in the
source, this is exactly Python's result). -/
def to_bytes_be (n v : Nat) : List Nat := digitsBE 256 n v

/-- 64-bit right rotation. -/
def rotr64 (x n : Nat) : Nat := (x >>> n) ||| ((x % 2 ^ n) <<< (64 - n)) % M64

/-! ## Blake2b (RFC 7693), unkeyed, sequential -/

def blakeIV : List Nat :=
  [0x6a09e667f3bcc908, 0xbb67ae8584caa73b, 0x3c6ef372fe94f82b,
   0xa54ff53a5f1d36f1, 0x510e527fade682d1, 0x9b05688c2b3e6c1f,
   0x1f83d9abfb41bd6b, 0x5be0cd19137e2179]

def blakeSigma : List (List Nat) :=
  [[0, 1, 2, 3, 4, 5, 6, 7, 8, 9, 10, 11, 12, 13, 14, 15],
   [14, 10, 4, 8, 9, 15, 13, 6, 1, 12, 0, 2, 11, 7, 5, 3],
   [11, 8, 12, 0, 5, 2, 15, 13, 10, 14, 3, 6, 7, 1, 9, 4],
   [7, 9, 3, 1, 13, 12, 11, 14, 2, 6, 5, 10, 4, 0, 15, 8],
   [9, 0, 5, 7, 2, 4, 10, 15, 14, 1, 11, 12, 6, 8, 3, 13],
   [2, 12, 6, 10, 0, 11, 8, 3, 4, 13, 7, 5, 15, 14, 1, 9],
   [12, 5, 1, 15, 14, 13, 4, 10, 0, 7, 6, 3, 9, 2, 8, 11],
   [13, 11, 7, 14, 12, 1, 3, 9, 5, 0, 15, 4, 8, 6, 2, 10],
   [6, 15, 14, 9, 11, 3, 0, 8, 12, 2, 13, 7, 1, 4, 10, 5],
   [10, 2, 8, 4, 7, 6, 1, 5, 15, 11, 9, 14, 3, 12, 13, 0]]

/-- Little-endian 64-bit word starting at byte offset `off`. -/
def leWordAt (b : List Nat) (off : Nat) : Nat :=
  (List.range 8).foldr (fun j acc => b.getD (off + j) 0 + 256 * acc) 0

/-- 128-byte block as 16 little-endian words. -/
def words16 (b : List Nat) : List Nat :=
  (List.range 16).map (fun i => leWordAt b (8 * i))

/-- Blake2b mixing function G on the 16-word work vector `v`. -/
def blakeG (m v : List Nat) (a b c d xi yi : Nat) : List Nat :=
  let x := lget m xi
  let y := lget m yi
  let va := (lget v a + lget v b + x) % M64
  let vd := rotr64 (Nat.xor (lget v d) va) 32
  let vc := (lget v c + vd) % M64
  let vb := rotr64 (Nat.xor (lget v b) vc) 24
  let va2 := (va + vb + y) % M64
  let vd2 := rotr64 (Nat.xor vd va2) 16
  let vc2 := (vc + vd2) % M64
  let vb2 := rotr64 (Nat.xor vb vc2) 63
  (((v.set a va2).set b vb2).set c vc2).set d vd2

/-- One Blake2b round with message schedule row `s`. -/
def blakeRound (m : List Nat) (v : List Nat) (s : List Nat) : List Nat :=
  let v1 := blakeG m v 0 4 8 12 (lget s 0) (lget s 1)
  let v2 := blakeG m v1 1 5 9 13 (lget s 2) (lget s 3)
  let v3 := blakeG m v2 2 6 10 14 (lget s 4) (lget s 5)
  let v4 := blakeG m v3 3 7 11 15 (lget s 6) (lget s 7)
  let v5 := blakeG m v4 0 5 10 15 (lget s 8) (lget s 9)
  let v6 := blakeG m v5 1 6 11 12 (lget s 10) (lget s 11)
  let v7 := blakeG m v6 2 7 8 13 (lget s 12) (lget s 13)
  blakeG m v7 3 4 9 14 (lget s 14) (lget s 15)

/-- Blake2b compression function F (t fits in 64 bits for all our inputs). -/
def blakeF (h : List Nat) (blockBytes : List Nat) (t : Nat) (last : Bool) :
    List Nat :=
  let m := words16 blockBytes
  let v0 := h ++ blakeIV
  let v1 := v0.set 12 (Nat.xor (lget v0 12) (t % M64))
  let v2 := if last then v1.set 14 (Nat.xor (lget v0 14) (M64 - 1)) else v1
  let vf := (List.range 12).foldl
    (fun v i => blakeRound m v (blakeSigma.getD (i % 10) [])) v2
  (List.range 8).map (fun i => Nat.xor (lget h i) (Nat.xor (lget vf i) (lget vf (i + 8))))

/-- Process the message 128 bytes at a time; `fuel` bounds the number of
blocks and is chosen large enough at the call site. -/
def blakeBlocks : Nat → List Nat → List Nat → Nat → List Nat
  | 0, h, _, _ => h
  | fuel + 1, h, rest, done =>
    if rest.length ≤ 128 then
      blakeF h (rest ++ List.replicate (128 - rest.length) 0) (done + rest.length) true
    else
      blakeBlocks fuel (blakeF h (rest.take 128) (done + 128) false) (rest.drop 128) (done + 128)

/-- Serialize a 64-bit word to 8 little-endian bytes. -/
def leBytes8 (w : Nat) : List Nat :=
  (List.range 8).map (fun j => (w >>> (8 * j)) % 256)

/-- Python `hashlib.blake2b` with digest size `outlen` over `msg`, unkeyed: digest as a
list of `outlen` bytes. -/
def blake2b (outlen : Nat) (msg : List Nat) : List Nat :=
  let h0 := blakeIV.set 0 (Nat.xor (lget blakeIV 0) (Nat.xor 0x01010000 outlen))
  let hf := blakeBlocks (msg.length / 128 + 1) h0 msg 0
  (((List.range 8).map (fun i => leBytes8 (lget hf i))).flatten).take outlen

set_option maxRecDepth 100000

/-! ## Python text-string utilities -/

def hexDigitVal (c : Char) : Option Nat :=
  if ('0' ≤ c ∧ c ≤ '9') then some (c.toNat - 48)
  else if ('a' ≤ c ∧ c ≤ 'f') then some (c.toNat - 87)
  else if ('A' ≤ c ∧ c ≤ 'F') then some (c.toNat - 55)
  else none

/-- Python `binascii.unhexlify`: pairs of hex digits to bytes; raises on odd length
or a character that is not a hex digit. -/
def pyUnhexlify : List Char → Except Err (List Nat)
  | [] => .ok []
  | [_] => .error .UnhexlifyError
  | c1 :: c2 :: rest =>
    match hexDigitVal c1, hexDigitVal c2, pyUnhexlify rest with
    | some v1, some v2, .ok bs => .ok ((16 * v1 + v2) :: bs)
    | _, _, _ => .error .UnhexlifyError

def hexCharsL : List Char := ("0123456789abcdef").toList
def hexCharsU : List Char := ("0123456789ABCDEF").toList

/-- Python `binascii.hexlify(_).decode()`: lowercase hex text of a byte string. -/
def hexlify (b : List Nat) : List Char :=
  b.flatMap (fun x => [hexCharsL.getD (x / 16) ' ', hexCharsL.getD (x % 16) ' '])

/-- Python `binascii.hexlify(_).decode().upper()` as the source composes it: the
uppercase hex text of a byte string. -/
def hexlifyUpper (b : List Nat) : List Char :=
  b.flatMap (fun x => [hexCharsU.getD (x / 16) ' ', hexCharsU.getD (x % 16) ' '])

/-- Python `str.__lt__`: lexicographic comparison by code point. -/
def pyStrLt : List Char → List Char → Bool
  | _, [] => false
  | [], _ :: _ => true
  | a :: as_, b :: bs => decide (a.toNat < b.toNat) || (a == b && pyStrLt as_ bs)

/-- Python `s1 >= s2` on strings (the negation of `<`, a total order). -/
def pyStrGe (a b : List Char) : Bool := !(pyStrLt a b)

/-! ## The two regular expressions of the source, as decidable predicates

`re.match(p, s)` with a pattern of the form `^core$` succeeds on exactly the
strings where `core` matches the whole of `s`, or the whole of `s` minus a
single trailing newline (Python's `$` also matches just before a final
newline). -/

def pyMatch (core : List Char → Bool) (s : List Char) : Bool :=
  core s || (s.getLast? == some '\n' && core s.dropLast)

def nanoAlphabet : List Char := ("13456789abcdefghijkmnopqrstuwxyz").toList

/-- Core of `NANO_ADDRESS_REGEX = '^(nano|xrb)_[13]{1}[alphabet]{59}$'`. -/
def matchAddrCore (s : List Char) : Bool :=
  let body : List Char → Bool := fun b =>
    match b with
    | [] => false
    | c :: rest =>
      (c == '1' || c == '3') && rest.length == 59 && rest.all (fun x => nanoAlphabet.contains x)
  if s.take 5 == ("nano_").toList then body (s.drop 5)
  else if s.take 4 == ("xrb_").toList then body (s.drop 4)
  else false

/-- Python `re.match(NANO_ADDRESS_REGEX, s)` as a Bool. -/
def matchNanoAddress (s : List Char) : Bool := pyMatch matchAddrCore s

def isHexChar (c : Char) : Bool :=
  ('0' ≤ c && c ≤ '9') || ('a' ≤ c && c ≤ 'f') || ('A' ≤ c && c ≤ 'F')

/-- Python `re.match` of the hex pattern of the source as a Bool. -/
def matchHexString (s : List Char) : Bool :=
  pyMatch (fun t => !t.isEmpty && t.all isHexChar) s

/-- Python `len(set(s)) == 1 and '0' in s`: `s` is nonempty and every character is
`'0'` (a set of size one containing `'0'` forces all characters equal to it). -/
def allZeroString (s : List Char) : Bool := !s.isEmpty && s.all (fun c => c == '0')

/-! ## The nanolib base-32 codec

The notebook delegates base-32 to the external `nanolib` package
(`nl.bytes_to_nbase32`, `nl.nbase32_to_bytes`), whose source is not part of
this repository; both are modelled from the spec (§4.2). -/

def to_b32digits (n v : Nat) : List Nat := digitsBE 32 n v

/-- Base-32 value of a most-significant-first digit list. -/
def b32Val (ds : List Nat) : Nat := valBE 32 ds

/-- Modelled from the spec: `nl.bytes_to_nbase32` — 5 bits per character,
most-significant-bit first, using the fixed 32-character alphabet, with
leading zero bits padded so the bit count is a multiple of 5 (§4.2). -/
def bytes_to_nbase32 (b : List Nat) : List Char :=
  (to_b32digits ((8 * b.length + 4) / 5) (beVal b)).map (fun d => nanoAlphabet.getD d ' ')

/-- Modelled from the spec: `nl.nbase32_to_bytes` — decode each character to
5 bits and drop the high padding bits so the result is byte-aligned (§4.2
"decode body to 260 bits, drop the 4 high padding bits"); characters outside
the alphabet are rejected. -/
def nbase32_to_bytes (s : List Char) : Except Err (List Nat) :=
  if s.all (fun c => nanoAlphabet.contains c) then
    .ok (to_bytes_be (5 * s.length / 8) (b32Val (s.map (fun c => nanoAlphabet.indexOf c))))
  else .error .InvalidNBase32

/-! ## Constants of the source (cell 2) -/

def KEYS_SIZE_BYTES : Nat := 32
def CHECKSUM_DIGEST_SIZE_BYTES : Nat := 5
def PRIVATE_KEY_INDEX_SIZE_BYTES : Nat := 4
def SIGNATURE_DIGEST_SIZE_BYTES : Nat := 32
def WORK_SIZE_BYTES : Nat := 8
def BALANCE_SIZE_BYTES : Nat := 16
def MAX_NONCE_SIZE : Nat := 2 ^ 64 - 1
def MINIMUM_NETWORK_DIFFICULTY : List Char := ("fffffff800000000").toList

/-- Python `l[:-n]`. -/
def pyDropLastN (l : List Nat) (n : Nat) : List Nat := l.take (l.length - n)

/-! ## Key derivation (cell 6) -/

/-- Source `generate_public_private_key_pairs(seed, index)`. The ed25519-blake2b
public-key derivation is the trusted external signature primitive (§1), so it
is a parameter `edpub`; the returned pair is (private key, public key), both
as uppercase hex text. -/
def generate_public_private_key_pairs (edpub : List Nat → List Nat)
    (seed : List Char) (index : Nat) : Except Err (List Char × List Char) :=
  if index > 2 ^ 32 - 1 then .error .IndexOutOfRange
  else
    -- source: `int(index).to_bytes(8, byteorder='big')[:-PRIVATE_KEY_INDEX_SIZE_BYTES]`
    let index_in_bytes := pyDropLastN (to_bytes_be 8 index) PRIVATE_KEY_INDEX_SIZE_BYTES
    match pyUnhexlify seed with
    | .error e => .error e
    | .ok seedBytes =>
      let private_key := blake2b KEYS_SIZE_BYTES (seedBytes ++ index_in_bytes)
      .ok (hexlifyUpper private_key, hexlifyUpper (edpub private_key))

/-! ## Address codec (cell 7) -/

/-- Source `derive_address_from_public_key(public_key)`. -/
def derive_address_from_public_key (public_key : List Char) : Except Err (List Char) :=
  match pyUnhexlify public_key with
  | .error e => .error e
  | .ok key =>
    let base32_key := bytes_to_nbase32 key
    let checksum := (blake2b CHECKSUM_DIGEST_SIZE_BYTES key).reverse
    let base32_checksum := bytes_to_nbase32 checksum
    .ok (("nano_").toList ++ base32_key ++ base32_checksum)

/-- Source `derive_public_key_from_address(address)`; `address[5:-8]` and
`address[-8:]` are the Python slices. -/
def derive_public_key_from_address (address : List Char) : Except Err (List Char) :=
  if !(matchNanoAddress address) then .error .InvalidAddressFormat
  else
    let address_part := (address.drop 5).take (address.length - 13)
    let checksum := address.drop (address.length - 8)
    match nbase32_to_bytes address_part with
    | .error e => .error e
    | .ok public_key =>
      let checksum_bits := (blake2b 5 public_key).reverse
      let computed_checksum := bytes_to_nbase32 checksum_bits
      if checksum ≠ computed_checksum then .error .ChecksumMismatch
      else .ok (hexlifyUpper public_key)

/-! ## Blocks (cells 4, 8, 9) -/

/-- The fields of the `Block` TypedDict that the hashing and work functions
read (`type`, `signature` and `work` are never read by them). -/
structure Block where
  account : List Char
  previous : List Char
  representative : List Char
  balance : List Char
  link : List Char

/-- Source `STATE_BLOCK_HEADER_BYTES = binascii.unhexlify("00…06")` (64 hex chars). -/
def STATE_BLOCK_HEADER_BYTES : List Nat :=
  (pyUnhexlify (("0000000000000000000000000000000000000000000000000000000000000006").toList)).toOption.getD []

/-- Source `process_link_data(block)`. -/
def process_link_data (block : Block) : Except Err (List Char) :=
  if matchNanoAddress block.link then derive_public_key_from_address block.link
  else if matchHexString block.link then .ok block.link
  else if allZeroString block.link then .ok block.link
  else .error .InvalidLinkFormat

/-- Python `int(s)` on a decimal string (optional sign). -/
def pyInt (s : List Char) : Option Int :=
  let digits : List Char → Option Nat := fun ds =>
    if ds ≠ [] ∧ ds.all (fun c => '0' ≤ c ∧ c ≤ '9') then
      some (ds.foldl (fun a c => a * 10 + (c.toNat - 48)) 0)
    else none
  match s with
  | '-' :: rest => (digits rest).map (fun n => -(n : Int))
  | '+' :: rest => (digits rest).map (fun n => (n : Int))
  | _ => (digits s).map (fun n => (n : Int))

/-- Source `int(block['balance']).to_bytes(BALANCE_SIZE_BYTES, byteorder='big')`:
raises on a non-numeric string, a negative value, or a value ≥ 2¹²⁸. -/
def balance_bytes (s : List Char) : Except Err (List Nat) :=
  match pyInt s with
  | none => .error .BalanceError
  | some z =>
    if z < 0 ∨ z ≥ 2 ^ (8 * BALANCE_SIZE_BYTES) then .error .BalanceError
    else .ok (to_bytes_be BALANCE_SIZE_BYTES z.toNat)

/-- The argument of `hasher.update(b''.join([...]))` in `create_block_hash`:
the canonical byte sequence that gets hashed. -/
def create_block_message (block : Block) : Except Err (List Nat) := do
  let public_key ← derive_public_key_from_address block.account
  let representative_key ← derive_public_key_from_address block.representative
  let account ← pyUnhexlify public_key
  let previous ← pyUnhexlify block.previous
  let representative ← pyUnhexlify representative_key
  let balance ← balance_bytes block.balance
  let linkHex ← process_link_data block
  let link ← pyUnhexlify linkHex
  pure (STATE_BLOCK_HEADER_BYTES ++ account ++ previous ++ representative ++ balance ++ link)

/-- Source `create_block_hash(block)`. -/
def create_block_hash (block : Block) : Except Err (List Nat) := do
  let message ← create_block_message block
  pure (blake2b SIGNATURE_DIGEST_SIZE_BYTES message)

/-! ## Proof of work (cell 9) -/

/-- Source `get_block_hash(block)`: the work base, as hex text. -/
def get_block_hash (block : Block) : Except Err (List Char) :=
  if allZeroString block.previous then derive_public_key_from_address block.account
  else .ok block.previous

/-- Source `validate_work(block, nonce, difficulty)`. A `None` nonce is `none`;
Python's `if not nonce` is true for `None` and for the empty string. -/
def validate_work (block : Block) (nonce : Option (List Char))
    (difficulty : List Char) : Except Err Bool :=
  match nonce with
  | none => .ok false
  | some nc =>
    if nc.isEmpty then .ok false
    else do
      let bh ← get_block_hash block
      let block_hash ← pyUnhexlify bh
      let bin_nonce ← pyUnhexlify nc
      let computed_hash := (blake2b WORK_SIZE_BYTES (bin_nonce.reverse ++ block_hash)).reverse
      let work := hexlify computed_hash
      pure (pyStrGe work difficulty)

/-- The candidate-testing loop of `compute_work`: `draws` is the stream of
values produced by `random.randint(0, MAX_NONCE_SIZE)`; exhausting it models
the timeout (`None`). Each draw is turned into 8 big-endian bytes, reversed,
hashed against the base, and the reversed digest's hex is compared against
the difficulty; on success the candidate is reversed back and hex-encoded. -/
def compute_work_loop (block_hash : List Nat) (difficulty : List Char) :
    List Nat → Option (List Char)
  | [] => none
  | r :: rest =>
    let candidate := (to_bytes_be 8 r).reverse
    let work := (blake2b WORK_SIZE_BYTES (candidate ++ block_hash)).reverse
    let computed_work := hexlify work
    if pyStrGe computed_work difficulty then some (hexlify candidate.reverse)
    else compute_work_loop block_hash difficulty rest

/-- Source `compute_work(block, difficulty, ·)` over an explicit stream of random
draws. -/
def compute_work (block : Block) (difficulty : List Char) (draws : List Nat) :
    Except Err (Option (List Char)) := do
  let bh ← get_block_hash block
  let block_hash ← pyUnhexlify bh
  pure (compute_work_loop block_hash difficulty draws)

/-! ## Concrete inputs used by witnesses and counterexamples -/

/-- 64 `'0'` characters: the hex text of 32 zero bytes, also the all-zero
`previous` sentinel. -/
def zeros64 : List Char := List.replicate 64 '0'

/-- The `nano_` address of the all-zero 32-byte public key. -/
def zeroKeyNanoAddr : List Char :=
  ("nano_1111111111111111111111111111111111111111111111111111hifc8npp").toList

/-- The same address with the legacy `xrb_` prefix. -/
def zeroKeyXrbAddr : List Char :=
  ("xrb_1111111111111111111111111111111111111111111111111111hifc8npp").toList

/-- A block whose link is the 2-character hex string `"ab"`. -/
def blockHexLink2 : Block :=
  { account := zeroKeyNanoAddr, previous := zeros64,
    representative := zeroKeyNanoAddr, balance := ("0").toList,
    link := ("ab").toList }

/-- A fully well-formed block (used to exercise `create_block_hash`). -/
def blockWellFormed : Block :=
  { account := zeroKeyNanoAddr, previous := zeros64,
    representative := zeroKeyNanoAddr, balance := ("0").toList,
    link := zeros64 }

/-- A block whose `previous` is the 2-character string `"00"`. -/
def blockPrev00 : Block :=
  { account := zeroKeyNanoAddr, previous := ("00").toList,
    representative := zeroKeyNanoAddr, balance := ("0").toList,
    link := zeros64 }

/-- A block whose `previous` is the non-hex, non-zero string `"ab"` is not
needed; this one has `previous = "ab"` (hex, not all zero). -/
def blockPrevAb : Block :=
  { account := zeroKeyNanoAddr, previous := ("ab").toList,
    representative := zeroKeyNanoAddr, balance := ("0").toList,
    link := zeros64 }

/-- A block whose `previous` is 64 `'f'` characters (a valid non-zero hex
base for the proof of work). -/
def blockPrevF : Block :=
  { account := zeroKeyNanoAddr, previous := List.replicate 64 'f',
    representative := zeroKeyNanoAddr, balance := ("0").toList,
    link := zeros64 }

/-- The value, as a natural number, denoted by a hex string (used to state
the threshold comparison numerically, as the claim does). -/
def hexStrVal (s : List Char) : Nat :=
  valBE 16 (s.map (fun c => (hexDigitVal c).getD 0))

/-! # Theorems -/

/-! ## Digit-list arithmetic -/

theorem digitsBE_length (base n v : Nat) : (digitsBE base n v).length = n := by
  induction n generalizing v with
  | zero => rfl
  | succ n ih => simp [digitsBE, ih]

theorem digitsBE_lt (base : Nat) (hb : 0 < base) (n v : Nat) :
    ∀ d ∈ digitsBE base n v, d < base := by
  induction n generalizing v with
  | zero => intro d hd; cases hd
  | succ n ih =>
    intro d hd
    rcases List.mem_append.1 hd with h | h
    · exact ih _ d h
    · rcases List.mem_singleton.1 h with rfl
      exact Nat.mod_lt _ hb

theorem valBE_append_singleton (base : Nat) (l : List Nat) (d : Nat) :
    valBE base (l ++ [d]) = valBE base l * base + d := by
  simp [valBE, List.foldl_append]

theorem valBE_digitsBE (base : Nat) (n v : Nat) :
    valBE base (digitsBE base n v) = v % base ^ n := by
  induction n generalizing v with
  | zero => simp [digitsBE, valBE, Nat.mod_one]
  | succ n ih =>
    rw [digitsBE, valBE_append_singleton, ih, pow_succ, Nat.mul_comm (base ^ n) base,
      Nat.mod_mul]
    ring

theorem digitsBE_valBE (base : Nat) (k : List Nat) (hk : ∀ d ∈ k, d < base) :
    digitsBE base k.length (valBE base k) = k := by
  induction k using List.reverseRecOn with
  | nil => rfl
  | append_singleton xs x ih =>
    have hx : x < base := hk x (List.mem_append.2 (Or.inr (List.mem_singleton.2 rfl)))
    have hxs : ∀ d ∈ xs, d < base := fun d hd => hk d (List.mem_append.2 (Or.inl hd))
    have hb : 0 < base := Nat.lt_of_le_of_lt (Nat.zero_le x) hx
    rw [List.length_append, List.length_singleton, valBE_append_singleton, digitsBE]
    have hdiv : (valBE base xs * base + x) / base = valBE base xs := by
      rw [Nat.mul_comm, Nat.mul_add_div hb, Nat.div_eq_of_lt hx, Nat.add_zero]
    have hmod : (valBE base xs * base + x) % base = x := by
      rw [Nat.mul_comm, Nat.mul_add_mod, Nat.mod_eq_of_lt hx]
    rw [hdiv, hmod, ih hxs]

theorem valBE_acc (base : Nat) (l : List Nat) (a : Nat) :
    List.foldl (fun a d => a * base + d) a l = a * base ^ l.length + valBE base l := by
  induction l generalizing a with
  | nil => simp [valBE]
  | cons x l ih =>
    simp only [List.foldl_cons, List.length_cons]
    rw [ih (a * base + x)]
    have hcons : valBE base (x :: l) = x * base ^ l.length + valBE base l := by
      simp only [valBE, List.foldl_cons, Nat.zero_mul, Nat.zero_add]
      exact ih x
    rw [hcons]
    ring

theorem valBE_cons (base : Nat) (x : Nat) (l : List Nat) :
    valBE base (x :: l) = x * base ^ l.length + valBE base l := by
  simp only [valBE, List.foldl_cons, Nat.zero_mul, Nat.zero_add]
  exact valBE_acc base l x

theorem valBE_lt (base : Nat) (k : List Nat) (hk : ∀ d ∈ k, d < base) :
    valBE base k < base ^ k.length := by
  induction k with
  | nil => simp [valBE]
  | cons x l ih =>
    rw [valBE_cons, List.length_cons, pow_succ]
    have hx : x < base := hk x (List.mem_cons_self _ _)
    have hl : valBE base l < base ^ l.length :=
      ih (fun d hd => hk d (List.mem_cons_of_mem _ hd))
    calc x * base ^ l.length + valBE base l
        < x * base ^ l.length + base ^ l.length := by omega
      _ = (x + 1) * base ^ l.length := by ring
      _ ≤ base * base ^ l.length := Nat.mul_le_mul_right _ hx
      _ = base ^ l.length * base := Nat.mul_comm _ _

theorem digitsBE_zero_val (base n : Nat) : digitsBE base n 0 = List.replicate n 0 := by
  induction n with
  | zero => rfl
  | succ n ih =>
    rw [digitsBE, Nat.zero_div, Nat.zero_mod, ih, List.replicate_succ' n 0]

theorem digitsBE_split (base : Nat) (hb : 0 < base) (m n v : Nat) :
    digitsBE base (m + n) v =
      digitsBE base m (v / base ^ n) ++ digitsBE base n (v % base ^ n) := by
  induction n generalizing v with
  | zero => simp [digitsBE, Nat.mod_one]
  | succ n ih =>
    have h1 : v / base / base ^ n = v / base ^ (n + 1) := by
      rw [Nat.div_div_eq_div_mul, pow_succ, Nat.mul_comm (base ^ n) base]
    have h2 : v / base % base ^ n = v % base ^ (n + 1) / base := by
      rw [pow_succ, Nat.mul_comm (base ^ n) base, Nat.mod_mul, Nat.add_mul_div_left _ _ hb,
        Nat.div_eq_of_lt (Nat.mod_lt _ hb), Nat.zero_add]
    have h3 : v % base ^ (n + 1) % base = v % base :=
      Nat.mod_mod_of_dvd v (dvd_pow_self base (Nat.succ_ne_zero n))
    rw [show m + (n + 1) = (m + n) + 1 from rfl, digitsBE, ih, digitsBE, h1, h2, h3,
      List.append_assoc]

/-! ## Hex text lemmas -/

theorem hexU_digit_roundtrip : ∀ d < 16, hexDigitVal (hexCharsU.getD d ' ') = some d := by
  decide

theorem hexL_digit_roundtrip : ∀ d < 16, hexDigitVal (hexCharsL.getD d ' ') = some d := by
  decide

theorem hexlifyUpper_cons (x : Nat) (l : List Nat) :
    hexlifyUpper (x :: l) =
      hexCharsU.getD (x / 16) ' ' :: hexCharsU.getD (x % 16) ' ' :: hexlifyUpper l := rfl

theorem hexlify_cons (x : Nat) (l : List Nat) :
    hexlify (x :: l) =
      hexCharsL.getD (x / 16) ' ' :: hexCharsL.getD (x % 16) ' ' :: hexlify l := rfl

theorem pyUnhexlify_hexlifyUpper (k : List Nat) (hk : ∀ b ∈ k, b < 256) :
    pyUnhexlify (hexlifyUpper k) = .ok k := by
  induction k with
  | nil => rfl
  | cons x l ih =>
    have hx : x < 256 := hk x (List.mem_cons_self _ _)
    have hl : ∀ b ∈ l, b < 256 := fun b hb => hk b (List.mem_cons_of_mem _ hb)
    rw [hexlifyUpper_cons, pyUnhexlify, hexU_digit_roundtrip (x / 16) (by omega),
      hexU_digit_roundtrip (x % 16) (by omega), ih hl]
    show Except.ok ((16 * (x / 16) + x % 16) :: l) = Except.ok (x :: l)
    have hxv : 16 * (x / 16) + x % 16 = x := by omega
    rw [hxv]

theorem pyUnhexlify_hexlify (k : List Nat) (hk : ∀ b ∈ k, b < 256) :
    pyUnhexlify (hexlify k) = .ok k := by
  induction k with
  | nil => rfl
  | cons x l ih =>
    have hx : x < 256 := hk x (List.mem_cons_self _ _)
    have hl : ∀ b ∈ l, b < 256 := fun b hb => hk b (List.mem_cons_of_mem _ hb)
    rw [hexlify_cons, pyUnhexlify, hexL_digit_roundtrip (x / 16) (by omega),
      hexL_digit_roundtrip (x % 16) (by omega), ih hl]
    show Except.ok ((16 * (x / 16) + x % 16) :: l) = Except.ok (x :: l)
    have hxv : 16 * (x / 16) + x % 16 = x := by omega
    rw [hxv]

theorem hexlify_isEmpty (k : List Nat) : (hexlify k).isEmpty = k.isEmpty := by
  cases k with
  | nil => rfl
  | cons x l => rw [hexlify_cons]; rfl

theorem hexlify_length (k : List Nat) : (hexlify k).length = 2 * k.length := by
  induction k with
  | nil => rfl
  | cons x l ih => rw [hexlify_cons]; simp [ih]; omega

theorem hexlify_mem_hexCharsL (k : List Nat) (hk : ∀ b ∈ k, b < 256) :
    ∀ c ∈ hexlify k, c ∈ hexCharsL := by
  induction k with
  | nil => intro c hc; cases hc
  | cons x l ih =>
    have hx : x < 256 := hk x (List.mem_cons_self _ _)
    have hl : ∀ b ∈ l, b < 256 := fun b hb => hk b (List.mem_cons_of_mem _ hb)
    intro c hc
    rw [hexlify_cons] at hc
    rcases hc with _ | ⟨_, hc⟩
    · exact (by decide : ∀ d < 16, hexCharsL.getD d ' ' ∈ hexCharsL) (x / 16) (by omega)
    · rcases hc with _ | ⟨_, hc⟩
      · exact (by decide : ∀ d < 16, hexCharsL.getD d ' ' ∈ hexCharsL) (x % 16) (by omega)
      · exact ih hl c hc

/-! ## Blake2b digest shape -/

theorem blake2b_flat_length (h : List Nat) :
    (((List.range 8).map (fun i => leBytes8 (lget h i))).flatten).length = 64 := by
  rw [show List.range 8 = [0, 1, 2, 3, 4, 5, 6, 7] from rfl]
  simp [leBytes8]

theorem blake2b_length (outlen : Nat) (h : outlen ≤ 64) (msg : List Nat) :
    (blake2b outlen msg).length = outlen := by
  rw [blake2b]
  rw [List.length_take, blake2b_flat_length]
  omega

theorem blake2b_bytes_lt (outlen : Nat) (msg : List Nat) :
    ∀ b ∈ blake2b outlen msg, b < 256 := by
  intro b hb
  rw [blake2b] at hb
  have hb2 := List.mem_of_mem_take hb
  rcases List.mem_flatten.1 hb2 with ⟨l', hl', hbl⟩
  rcases List.mem_map.1 hl' with ⟨i, _, rfl⟩
  simp only [leBytes8] at hbl
  rcases List.mem_map.1 hbl with ⟨j, _, rfl⟩
  exact Nat.mod_lt _ (by norm_num)

/-! ## Key derivation: the index bytes actually hashed -/

theorem index_in_bytes_all_zero (i : Nat) (h : i ≤ 2 ^ 32 - 1) :
    pyDropLastN (to_bytes_be 8 i) PRIVATE_KEY_INDEX_SIZE_BYTES = List.replicate 4 0 := by
  have hlen : (to_bytes_be 8 i).length = 8 := digitsBE_length 256 8 i
  rw [pyDropLastN, hlen]
  have hsplit : to_bytes_be 8 i =
      digitsBE 256 4 (i / 256 ^ 4) ++ digitsBE 256 4 (i % 256 ^ 4) := by
    rw [to_bytes_be, show (8 : Nat) = 4 + 4 from rfl, digitsBE_split 256 (by norm_num)]
  have hdl : (digitsBE 256 4 (i / 256 ^ 4)).length = 4 := digitsBE_length 256 4 _
  rw [hsplit, show (8 : Nat) - PRIVATE_KEY_INDEX_SIZE_BYTES = 4 from rfl,
    List.take_left' hdl]
  have hzero : i / 256 ^ 4 = 0 := Nat.div_eq_of_lt (by norm_num at h ⊢; omega)
  rw [hzero, digitsBE_zero_val]

/-- C2 (code behavior): for any valid indices the bytes appended to the seed
are the four high-order bytes of the 8-byte representation, which are all
zero, so the derived key pair does not depend on the index at all. -/
theorem generate_key_pairs_ignore_index (edpub : List Nat → List Nat)
    (seed : List Char) (i j : Nat) (hi : i ≤ 2 ^ 32 - 1) (hj : j ≤ 2 ^ 32 - 1) :
    generate_public_private_key_pairs edpub seed i =
      generate_public_private_key_pairs edpub seed j := by
  unfold generate_public_private_key_pairs
  rw [if_neg (by omega), if_neg (by omega), index_in_bytes_all_zero i hi,
    index_in_bytes_all_zero j hj]

/-- C2 witness: concrete indices 0 and 1 on the all-zero seed give the same
key pair. -/
theorem generate_key_pairs_ignore_index_witness :
    (0 : Nat) ≤ 2 ^ 32 - 1 ∧ (1 : Nat) ≤ 2 ^ 32 - 1 ∧
    generate_public_private_key_pairs id zeros64 0 =
      generate_public_private_key_pairs id zeros64 1 :=
  ⟨by norm_num, by norm_num,
    generate_key_pairs_ignore_index id zeros64 0 1 (by norm_num) (by norm_num)⟩

/-- C1 (code behavior at the failing input): with the all-zero seed and
index 1, the code's private key is the digest of `seed ‖ [0,0,0,0]` — the
high-order, always-zero bytes of the index — and that digest differs from the
digest of `seed ‖ [0,0,0,1]`, which is what the claim (low-order four bytes
of the 8-byte big-endian index) prescribes. -/
theorem generate_private_key_uses_high_bytes :
    (generate_public_private_key_pairs id zeros64 1).map Prod.fst =
      .ok (hexlifyUpper (blake2b 32 (List.replicate 32 0 ++ [0, 0, 0, 0]))) ∧
    hexlifyUpper (blake2b 32 (List.replicate 32 0 ++ [0, 0, 0, 0])) ≠
      hexlifyUpper (blake2b 32 (List.replicate 32 0 ++ [0, 0, 0, 1])) := by
  constructor
  · decide
  · decide

/-- C5 (code behavior at the failing input): the `xrb_` spelling of the
all-zero public key's address is rejected with a checksum error by
`derive_public_key_from_address`, while the `nano_` spelling of the same key
decodes to the key — the two prefixes are not treated identically. -/
theorem xrb_alias_decode_fails :
    derive_public_key_from_address zeroKeyXrbAddr = .error .ChecksumMismatch ∧
    derive_public_key_from_address zeroKeyNanoAddr = .ok zeros64 := by
  constructor
  · decide
  · decide

/-- C10: `validate_work` returns `False` (it does not raise) when the nonce
is Python `None` or the empty string, for every block and difficulty. -/
theorem validate_work_falsy_nonce (block : Block) (difficulty : List Char) :
    validate_work block none difficulty = .ok false ∧
    validate_work block (some []) difficulty = .ok false :=
  ⟨rfl, rfl⟩

/-! ## Work base selection (C9) -/

theorem allZeroString_iff (s : List Char) :
    allZeroString s = true ↔ ∃ n, 0 < n ∧ s = List.replicate n '0' := by
  constructor
  · intro h
    rcases hs : s with _ | ⟨c, t⟩
    · rw [hs] at h; cases h
    · rw [hs] at h
      simp only [allZeroString, Bool.and_eq_true, List.all_eq_true] at h
      refine ⟨t.length + 1, Nat.succ_pos _, ?_⟩
      have hall : ∀ x ∈ c :: t, x = '0' := fun x hx => by
        have := h.2 x hx
        exact eq_of_beq this
      exact List.eq_replicate_iff.2 ⟨by simp, fun b hb => hall b hb⟩
  · rintro ⟨n, hn, rfl⟩
    simp only [allZeroString, Bool.and_eq_true, List.all_eq_true]
    constructor
    · cases n with
      | zero => exact absurd hn (by omega)
      | succ n => simp [List.replicate_succ]
    · intro x hx
      rcases List.eq_of_mem_replicate hx with rfl
      rfl

/-- C9 (amended): if `previous` is a nonempty run of `'0'` characters — of
any length, not only 64 — the work base is the account's public key;
otherwise it is `previous` itself. -/
theorem get_block_hash_base_selection (block : Block) :
    ((∃ n, 0 < n ∧ block.previous = List.replicate n '0') →
      get_block_hash block = derive_public_key_from_address block.account) ∧
    ((¬ ∃ n, 0 < n ∧ block.previous = List.replicate n '0') →
      get_block_hash block = .ok block.previous) := by
  constructor
  · intro h
    unfold get_block_hash
    rw [if_pos ((allZeroString_iff _).2 h)]
  · intro h
    unfold get_block_hash
    rw [if_neg (fun hz => h ((allZeroString_iff _).1 hz))]

/-- C9 witness: the two branches at concrete blocks (`previous` = 64 zeros,
and `previous` = `"ab"`). -/
theorem get_block_hash_base_selection_witness :
    get_block_hash blockWellFormed = derive_public_key_from_address blockWellFormed.account ∧
    get_block_hash blockPrevAb = .ok blockPrevAb.previous := by
  constructor
  · exact (get_block_hash_base_selection blockWellFormed).1 ⟨64, by norm_num, rfl⟩
  · refine (get_block_hash_base_selection blockPrevAb).2 ?_
    rintro ⟨n, hn, he⟩
    have hlen := congrArg List.length he
    simp only [List.length_replicate] at hlen
    have : n = 2 := by
      have : blockPrevAb.previous.length = 2 := by decide
      omega
    subst this
    exact absurd he (by decide)

/-- C9 counterexample: for the block whose `previous` is the two-character
string `"00"` — not the 64-character sentinel — the code still takes the
account branch: the work base is the account's 64-character public key, not
the raw `"00"`. -/
theorem get_block_hash_prev00_counterexample :
    get_block_hash blockPrev00 = .ok zeros64 ∧ zeros64 ≠ blockPrev00.previous := by
  constructor
  · decide
  · decide

/-! ## Link classification (C4) -/

theorem nbase32_to_bytes_error (s : List Char) (e : Err)
    (h : nbase32_to_bytes s = .error e) : e = .InvalidNBase32 := by
  unfold nbase32_to_bytes at h
  split at h
  · cases h
  · exact (Except.error.inj h).symm

theorem derive_public_key_ne_invalid_link (s : List Char) :
    derive_public_key_from_address s ≠ .error .InvalidLinkFormat := by
  unfold derive_public_key_from_address
  split
  · intro h
    cases h
  · rcases hnb : nbase32_to_bytes ((s.drop 5).take (s.length - 13)) with e | pk
    · simp only [hnb]
      intro h
      have := nbase32_to_bytes_error _ _ hnb
      cases (Except.error.inj h) 
      cases this
    · simp only [hnb]
      split
      · intro h
        cases h
      · intro h
        cases h

/-- C4 (amended): `process_link_data` fails with `InvalidLinkFormat` exactly
when the link matches none of the code's three shapes — a syntactically
valid address, a nonempty hex string of ANY length, or a nonempty all-`'0'`
string. -/
theorem process_link_data_invalid_iff (block : Block) :
    process_link_data block = .error .InvalidLinkFormat ↔
      matchNanoAddress block.link = false ∧ matchHexString block.link = false ∧
        allZeroString block.link = false := by
  unfold process_link_data
  cases hA : matchNanoAddress block.link
  · cases hH : matchHexString block.link
    · cases hZ : allZeroString block.link
      · simp
      · simp
    · simp
  · simp only [if_pos rfl]
    constructor
    · intro h
      exact absurd h (derive_public_key_ne_invalid_link block.link)
    · rintro ⟨h, -⟩
      cases h

/-- C4 counterexample: the two-character hex link `"ab"` matches none of the
claim's three legal shapes (it is not an address and has length 2, not 64),
yet `process_link_data` accepts it as a Receive payload instead of failing
with `InvalidLinkFormat`. -/
theorem process_link_data_short_hex_accepted :
    process_link_data blockHexLink2 = .ok (("ab").toList) ∧
    matchNanoAddress (("ab").toList) = false ∧ (("ab").toList).length ≠ 64 := by
  refine ⟨?_, ?_, ?_⟩
  · decide
  · decide
  · decide

/-! ## Except plumbing -/

theorem except_ok_bind {ε α β : Type} (a : α) (f : α → Except ε β) :
    ((Except.ok a : Except ε α) >>= f) = f a := rfl

theorem except_pure {ε α : Type} (x : α) : (pure x : Except ε α) = .ok x := rfl

theorem except_bind_ok {ε α β : Type} (x : Except ε α) (f : α → Except ε β) (b : β)
    (h : (x >>= f) = .ok b) : ∃ a, x = .ok a ∧ f a = .ok b := by
  cases x with
  | error e => exact Except.noConfusion h
  | ok a => exact ⟨a, rfl, h⟩

theorem isEmpty_false_of_pos {α : Type} (l : List α) (h : 0 < l.length) :
    l.isEmpty = false := by
  cases l with
  | nil => cases h
  | cons x t => rfl

/-! ## Search / validate agreement (C7) -/

theorem compute_work_loop_validate (block : Block) (difficulty : List Char)
    (bh : List Char) (base : List Nat) (draws : List Nat) (nonce : List Char)
    (hbh : get_block_hash block = .ok bh)
    (hbase : pyUnhexlify bh = .ok base)
    (hloop : compute_work_loop base difficulty draws = some nonce) :
    validate_work block (some nonce) difficulty = .ok true := by
  induction draws with
  | nil => cases hloop
  | cons r rest ih =>
    simp only [compute_work_loop] at hloop
    by_cases hge : pyStrGe
        (hexlify ((blake2b WORK_SIZE_BYTES ((to_bytes_be 8 r).reverse ++ base)).reverse))
        difficulty = true
    · rw [if_pos hge] at hloop
      have hnonce : nonce = hexlify (to_bytes_be 8 r) := by
        have := Option.some.inj hloop
        rw [List.reverse_reverse] at this
        exact this.symm
      subst hnonce
      have hcand : ∀ b ∈ to_bytes_be 8 r, b < 256 :=
        digitsBE_lt 256 (by norm_num) 8 r
      have hlen : (to_bytes_be 8 r).length = 8 := digitsBE_length 256 8 r
      simp only [validate_work]
      rw [if_neg (by
        rw [hexlify_isEmpty, isEmpty_false_of_pos _ (by omega)]
        exact Bool.false_ne_true)]
      rw [hbh, except_ok_bind, hbase, except_ok_bind, pyUnhexlify_hexlify _ hcand,
        except_ok_bind, except_pure, hge]
    · rw [if_neg hge] at hloop
      exact ih hloop

/-- C7: whenever the search loop of `compute_work` terminates with a nonce
(rather than the timeout outcome `none`), `validate_work` accepts that nonce
at the same difficulty: the validator re-derives exactly the digest the
search tested. -/
theorem compute_work_agrees_with_validate_work (block : Block)
    (difficulty : List Char) (draws : List Nat) (nonce : List Char)
    (h : compute_work block difficulty draws = .ok (some nonce)) :
    validate_work block (some nonce) difficulty = .ok true := by
  unfold compute_work at h
  obtain ⟨bh, hbh, h2⟩ := except_bind_ok _ _ _ h
  obtain ⟨base, hbase, h3⟩ := except_bind_ok _ _ _ h2
  exact compute_work_loop_validate block difficulty bh base draws nonce hbh hbase
    (Except.ok.inj h3)

/-- C7 witness: with the all-`'f'` previous block, the all-zero difficulty
and the single draw 0, the search returns the all-zero nonce and the
validator accepts it. -/
theorem compute_work_agrees_witness :
    compute_work blockPrevF (List.replicate 16 '0') [0] =
      .ok (some (List.replicate 16 '0')) ∧
    validate_work blockPrevF (some (List.replicate 16 '0'))
      (List.replicate 16 '0') = .ok true := by
  constructor
  · decide
  · exact compute_work_agrees_with_validate_work blockPrevF (List.replicate 16 '0')
      [0] (List.replicate 16 '0') (by decide)

/-! ## Threshold comparison (C6): Python string order vs numeric order -/

theorem hexCharsL_toNat_lt_iff : ∀ a ∈ hexCharsL, ∀ b ∈ hexCharsL,
    (a.toNat < b.toNat ↔ (hexDigitVal a).getD 0 < (hexDigitVal b).getD 0) := by decide

theorem hexCharsL_eq_iff : ∀ a ∈ hexCharsL, ∀ b ∈ hexCharsL,
    (a = b ↔ (hexDigitVal a).getD 0 = (hexDigitVal b).getD 0) := by decide

theorem hexCharsL_val_lt : ∀ c ∈ hexCharsL, (hexDigitVal c).getD 0 < 16 := by decide

theorem lex_val_lt_high (va vb v1 v2 B : Nat) (h1 : v1 < B) (hlt : va < vb) :
    va * B + v1 < vb * B + v2 := by
  calc va * B + v1 < va * B + B := by omega
    _ = (va + 1) * B := by ring
    _ ≤ vb * B := Nat.mul_le_mul_right _ hlt
    _ ≤ vb * B + v2 := Nat.le_add_right _ _

theorem lex_val_not_lt (va vb v1 v2 B : Nat) (h2 : v2 < B) (hgt : vb < va) :
    ¬ va * B + v1 < vb * B + v2 := by
  have := lex_val_lt_high vb va v2 v1 B h2 hgt
  omega

theorem hexStrVal_bound (s : List Char) (hs : ∀ c ∈ s, c ∈ hexCharsL) :
    hexStrVal s < 16 ^ s.length := by
  have hd : ∀ d ∈ s.map (fun c => (hexDigitVal c).getD 0), d < 16 := by
    intro d hd
    rcases List.mem_map.1 hd with ⟨c, hc, rfl⟩
    exact hexCharsL_val_lt c (hs c hc)
  have := valBE_lt 16 (s.map fun c => (hexDigitVal c).getD 0) hd
  simpa [hexStrVal] using this

theorem hexStrVal_cons (a : Char) (s : List Char) :
    hexStrVal (a :: s) = (hexDigitVal a).getD 0 * 16 ^ s.length + hexStrVal s := by
  simp [hexStrVal, List.map_cons, valBE_cons]

theorem pyStrLt_hex_iff (s : List Char) : ∀ t : List Char, s.length = t.length →
    (∀ c ∈ s, c ∈ hexCharsL) → (∀ c ∈ t, c ∈ hexCharsL) →
    (pyStrLt s t = true ↔ hexStrVal s < hexStrVal t) := by
  induction s with
  | nil =>
    intro t hlen _ _
    cases t with
    | nil => simp [pyStrLt, hexStrVal, valBE]
    | cons b t' => cases hlen
  | cons a s' ih =>
    intro t hlen hs ht
    cases t with
    | nil => cases hlen
    | cons b t' =>
      have hlen' : s'.length = t'.length := by simpa using hlen
      have ha : a ∈ hexCharsL := hs a (List.mem_cons_self _ _)
      have hb : b ∈ hexCharsL := ht b (List.mem_cons_self _ _)
      have hs' : ∀ c ∈ s', c ∈ hexCharsL := fun c hc => hs c (List.mem_cons_of_mem _ hc)
      have ht' : ∀ c ∈ t', c ∈ hexCharsL := fun c hc => ht c (List.mem_cons_of_mem _ hc)
      have hvs : hexStrVal s' < 16 ^ s'.length := hexStrVal_bound s' hs'
      have hvt : hexStrVal t' < 16 ^ s'.length := hlen' ▸ hexStrVal_bound t' ht'
      have hB : (16 : Nat) ^ t'.length = 16 ^ s'.length := by rw [hlen']
      rw [hexStrVal_cons, hexStrVal_cons, hB, pyStrLt]
      rcases Nat.lt_trichotomy ((hexDigitVal a).getD 0) ((hexDigitVal b).getD 0) with
        hlt | heq | hgt
      · refine iff_of_true ?_ (lex_val_lt_high _ _ _ _ _ hvs hlt)
        have h1 : a.toNat < b.toNat := (hexCharsL_toNat_lt_iff a ha b hb).2 hlt
        simp [h1]
      · have hab : a = b := (hexCharsL_eq_iff a ha b hb).2 heq
        subst hab
        rw [heq]
        have h1 : ¬ a.toNat < a.toNat := Nat.lt_irrefl _
        simp only [h1, decide_eq_false_iff_not.2 h1, Bool.false_or, beq_self_eq_true,
          Bool.true_and]
        rw [Nat.add_lt_add_iff_left]
        exact ih t' hlen' hs' ht'
      · have h1 : ¬ a.toNat < b.toNat := by
          rw [hexCharsL_toNat_lt_iff a ha b hb]
          omega
        have h2 : (a == b) = false := by
          apply beq_eq_false_iff_ne.2
          intro he
          rw [(hexCharsL_eq_iff a ha b hb).1 he] at hgt
          exact Nat.lt_irrefl _ hgt
        refine iff_of_false ?_ (lex_val_not_lt _ _ _ _ _ hvt hgt)
        simp [h1, h2]

theorem hexL_digit_val : ∀ d < 16, (hexDigitVal (hexCharsL.getD d ' ')).getD 0 = d := by
  decide

theorem foldl16_hexlify (k : List Nat) (hk : ∀ b ∈ k, b < 256) :
    ∀ a, List.foldl (fun a d => a * 16 + d)
        a ((hexlify k).map (fun c => (hexDigitVal c).getD 0)) =
      List.foldl (fun a b => a * 256 + b) a k := by
  induction k with
  | nil => intro a; rfl
  | cons x l ih =>
    intro a
    have hx : x < 256 := hk x (List.mem_cons_self _ _)
    have hl : ∀ b ∈ l, b < 256 := fun b hb => hk b (List.mem_cons_of_mem _ hb)
    rw [hexlify_cons, List.map_cons, List.map_cons, List.foldl_cons, List.foldl_cons,
      List.foldl_cons, hexL_digit_val (x / 16) (by omega), hexL_digit_val (x % 16) (by omega),
      ih hl]
    have : (a * 16 + x / 16) * 16 + x % 16 = a * 256 + x := by omega
    rw [this]

theorem hexStrVal_hexlify (k : List Nat) (hk : ∀ b ∈ k, b < 256) :
    hexStrVal (hexlify k) = beVal k := by
  simp only [hexStrVal, beVal, valBE]
  exact foldl16_hexlify k hk 0

/-- C6: for a nonempty nonce that parses as bytes, a resolvable work base,
and a 16-character lowercase-hex difficulty, `validate_work` returns `True`
exactly when the 8-byte digest of (byte-reversed nonce ‖ work base), itself
byte-reversed and read as a big-endian 64-bit integer, is at least the
difficulty's value; moreover the comparison it uses rates the claim's
example digest `fffffff900000000` as sufficient and `fffffff700000000` as
insufficient against the default threshold `fffffff800000000`. -/
theorem validate_work_iff_threshold (block : Block) (nonce difficulty bh : List Char)
    (base nbytes : List Nat)
    (hn : nonce ≠ [])
    (hbh : get_block_hash block = .ok bh)
    (hbase : pyUnhexlify bh = .ok base)
    (hnb : pyUnhexlify nonce = .ok nbytes)
    (hdl : difficulty.length = 16)
    (hdc : ∀ c ∈ difficulty, c ∈ hexCharsL) :
    (validate_work block (some nonce) difficulty = .ok true ↔
      hexStrVal difficulty ≤
        beVal ((blake2b WORK_SIZE_BYTES (nbytes.reverse ++ base)).reverse)) ∧
    pyStrGe (("fffffff900000000").toList) MINIMUM_NETWORK_DIFFICULTY = true ∧
    pyStrGe (("fffffff700000000").toList) MINIMUM_NETWORK_DIFFICULTY = false := by
  refine ⟨?_, by decide, by decide⟩
  have hdig : ∀ b ∈ (blake2b WORK_SIZE_BYTES (nbytes.reverse ++ base)).reverse, b < 256 :=
    fun b hb => blake2b_bytes_lt _ _ b (List.mem_reverse.1 hb)
  have hdlen : ((blake2b WORK_SIZE_BYTES (nbytes.reverse ++ base)).reverse).length = 8 := by
    rw [List.length_reverse]
    exact blake2b_length 8 (by norm_num) _
  have hval : hexStrVal (hexlify ((blake2b WORK_SIZE_BYTES (nbytes.reverse ++ base)).reverse)) =
      beVal ((blake2b WORK_SIZE_BYTES (nbytes.reverse ++ base)).reverse) :=
    hexStrVal_hexlify _ hdig
  have hwlen : (hexlify ((blake2b WORK_SIZE_BYTES (nbytes.reverse ++ base)).reverse)).length
      = 16 := by rw [hexlify_length, hdlen]
  have hwc := hexlify_mem_hexCharsL _ hdig
  have hlt := pyStrLt_hex_iff
    (hexlify ((blake2b WORK_SIZE_BYTES (nbytes.reverse ++ base)).reverse)) difficulty
    (by rw [hwlen, hdl]) hwc hdc
  simp only [validate_work]
  rw [if_neg (by
    rw [isEmpty_false_of_pos nonce (List.length_pos.2 hn)]
    exact Bool.false_ne_true)]
  rw [hbh, except_ok_bind, hbase, except_ok_bind, hnb, except_ok_bind, except_pure]
  constructor
  · intro h
    have h1 := Except.ok.inj h
    rw [pyStrGe] at h1
    have h2 : pyStrLt (hexlify ((blake2b WORK_SIZE_BYTES (nbytes.reverse ++ base)).reverse))
        difficulty = false := by
      cases hx : pyStrLt (hexlify ((blake2b WORK_SIZE_BYTES
          (nbytes.reverse ++ base)).reverse)) difficulty
      · rfl
      · rw [hx] at h1; cases h1
    have h3 : ¬ hexStrVal (hexlify ((blake2b WORK_SIZE_BYTES
        (nbytes.reverse ++ base)).reverse)) < hexStrVal difficulty :=
      fun hc => Bool.false_ne_true (h2 ▸ hlt.2 hc)
    rw [hval] at h3
    omega
  · intro h
    have h3 : ¬ hexStrVal (hexlify ((blake2b WORK_SIZE_BYTES
        (nbytes.reverse ++ base)).reverse)) < hexStrVal difficulty := by
      rw [hval]
      omega
    have h2 : pyStrLt (hexlify ((blake2b WORK_SIZE_BYTES (nbytes.reverse ++ base)).reverse))
        difficulty = false := by
      cases hx : pyStrLt (hexlify ((blake2b WORK_SIZE_BYTES
          (nbytes.reverse ++ base)).reverse)) difficulty
      · rfl
      · exact absurd (hlt.1 hx) h3
    rw [pyStrGe, h2]
    rfl

/-- C6 witness: concrete block, all-zero nonce and the default difficulty. -/
theorem validate_work_iff_threshold_witness :
    (validate_work blockPrevF (some (List.replicate 16 '0')) MINIMUM_NETWORK_DIFFICULTY
        = .ok true ↔
      hexStrVal MINIMUM_NETWORK_DIFFICULTY ≤
        beVal ((blake2b WORK_SIZE_BYTES
          ((List.replicate 8 0).reverse ++ List.replicate 32 255)).reverse)) ∧
    pyStrGe (("fffffff900000000").toList) MINIMUM_NETWORK_DIFFICULTY = true ∧
    pyStrGe (("fffffff700000000").toList) MINIMUM_NETWORK_DIFFICULTY = false :=
  validate_work_iff_threshold blockPrevF (List.replicate 16 '0')
    MINIMUM_NETWORK_DIFFICULTY (List.replicate 64 'f') (List.replicate 32 255)
    (List.replicate 8 0) (by decide) (by decide) (by decide) (by decide) (by decide)
    (by decide)

/-! ## Address codec round trip (C8) -/

theorem contains_true_of_mem (l : List Char) (c : Char) (h : c ∈ l) :
    l.contains c = true := List.elem_eq_true_of_mem h

theorem bytes_to_nbase32_chars (b : List Nat) :
    ∀ c ∈ bytes_to_nbase32 b, c ∈ nanoAlphabet := by
  intro c hc
  unfold bytes_to_nbase32 to_b32digits at hc
  rcases List.mem_map.1 hc with ⟨d, hd, rfl⟩
  have hd32 : d < 32 := digitsBE_lt 32 (by norm_num) _ _ d hd
  exact (by decide : ∀ d < 32, nanoAlphabet.getD d ' ' ∈ nanoAlphabet) d hd32

theorem bytes_to_nbase32_length (b : List Nat) :
    (bytes_to_nbase32 b).length = (8 * b.length + 4) / 5 := by
  unfold bytes_to_nbase32 to_b32digits
  rw [List.length_map, digitsBE_length]

theorem nanoAlphabet_digit_roundtrip :
    ∀ d < 32, nanoAlphabet.indexOf (nanoAlphabet.getD d ' ') = d := by decide

theorem nbase32_roundtrip (k : List Nat) (hlen : k.length = 32)
    (hk : ∀ b ∈ k, b < 256) : nbase32_to_bytes (bytes_to_nbase32 k) = .ok k := by
  unfold nbase32_to_bytes
  rw [if_pos (List.all_eq_true.2 (fun c hc =>
    contains_true_of_mem _ c (bytes_to_nbase32_chars k c hc)))]
  have hmap : (bytes_to_nbase32 k).map (fun c => nanoAlphabet.indexOf c) =
      digitsBE 32 52 (beVal k) := by
    unfold bytes_to_nbase32 to_b32digits
    rw [hlen, List.map_map]
    rw [show (8 * 32 + 4) / 5 = 52 from rfl]
    have hmapid : List.map ((fun c => nanoAlphabet.indexOf c) ∘
          (fun d => nanoAlphabet.getD d ' ')) (digitsBE 32 52 (beVal k)) =
        List.map id (digitsBE 32 52 (beVal k)) :=
      List.map_congr_left (fun d hd => nanoAlphabet_digit_roundtrip d
        (digitsBE_lt 32 (by norm_num) _ _ d hd))
    rw [hmapid, List.map_id]
  rw [bytes_to_nbase32_length, hlen, hmap]
  rw [show (5 * ((8 * 32 + 4) / 5)) / 8 = 32 from rfl]
  unfold b32Val
  rw [valBE_digitsBE]
  have hbound : beVal k < 32 ^ 52 := by
    have h1 : valBE 256 k < 256 ^ 32 := hlen ▸ valBE_lt 256 k hk
    have h2 : (256 : Nat) ^ 32 ≤ 32 ^ 52 := by norm_num
    exact Nat.lt_of_lt_of_le h1 h2
  rw [Nat.mod_eq_of_lt hbound]
  unfold to_bytes_be
  have := digitsBE_valBE 256 k hk
  rw [hlen] at this
  rw [show beVal k = valBE 256 k from rfl, this]

theorem bytes_to_nbase32_head (k : List Nat) (hlen : k.length = 32)
    (hk : ∀ b ∈ k, b < 256) :
    ∃ c t, bytes_to_nbase32 k = c :: t ∧ (c = '1' ∨ c = '3') ∧ t.length = 51 := by
  unfold bytes_to_nbase32 to_b32digits
  rw [hlen, show (8 * 32 + 4) / 5 = 52 from rfl, show (52 : Nat) = 1 + 51 from rfl,
    digitsBE_split 32 (by norm_num)]
  have hfirst : digitsBE 32 1 (beVal k / 32 ^ 51) = [beVal k / 32 ^ 51 % 32] := by
    simp [digitsBE]
  rw [hfirst]
  have hx : beVal k / 32 ^ 51 < 2 := by
    have h1 : valBE 256 k < 256 ^ 32 := hlen ▸ valBE_lt 256 k hk
    have h2 : (256 : Nat) ^ 32 = 2 * 32 ^ 51 := by norm_num
    exact (Nat.div_lt_iff_lt_mul (by positivity)).2 (by
      rw [show beVal k = valBE 256 k from rfl]
      omega)
  have hmod : beVal k / 32 ^ 51 % 32 = beVal k / 32 ^ 51 := Nat.mod_eq_of_lt (by omega)
  rw [List.cons_append, List.nil_append, List.map_cons]
  refine ⟨_, _, rfl, ?_, ?_⟩
  · rw [hmod]
    rcases (by omega : beVal k / 32 ^ 51 = 0 ∨ beVal k / 32 ^ 51 = 1) with h | h
    · rw [h]; left; rfl
    · rw [h]; right; rfl
  · rw [List.length_map, digitsBE_length]

theorem encoded_address_matches (k : List Nat) (hlen : k.length = 32)
    (hk : ∀ b ∈ k, b < 256) :
    matchNanoAddress (("nano_").toList ++ bytes_to_nbase32 k ++
      bytes_to_nbase32 ((blake2b CHECKSUM_DIGEST_SIZE_BYTES k).reverse)) = true := by
  obtain ⟨c, t, hbody, hc, htl⟩ := bytes_to_nbase32_head k hlen hk
  have hcslen : (bytes_to_nbase32 ((blake2b CHECKSUM_DIGEST_SIZE_BYTES k).reverse)).length
      = 8 := by
    rw [bytes_to_nbase32_length, List.length_reverse,
      blake2b_length CHECKSUM_DIGEST_SIZE_BYTES (by norm_num [CHECKSUM_DIGEST_SIZE_BYTES]) k]
    rfl
  have hcore : matchAddrCore (("nano_").toList ++ bytes_to_nbase32 k ++
      bytes_to_nbase32 ((blake2b CHECKSUM_DIGEST_SIZE_BYTES k).reverse)) = true := by
    unfold matchAddrCore
    rw [List.append_assoc]
    rw [List.take_left' (by rfl), List.drop_left' (by rfl)]
    rw [if_pos (by simp)]
    rw [hbody, List.cons_append]
    have hrest : ((c :: t) ++ bytes_to_nbase32
        ((blake2b CHECKSUM_DIGEST_SIZE_BYTES k).reverse)) = c :: (t ++
        bytes_to_nbase32 ((blake2b CHECKSUM_DIGEST_SIZE_BYTES k).reverse)) := rfl
    simp only [Bool.and_eq_true, Bool.or_eq_true, beq_iff_eq]
    refine ⟨⟨?_, ?_⟩, ?_⟩
    · exact hc.imp id id
    · rw [List.length_append, htl, hcslen]
    · rw [List.all_eq_true]
      intro x hx
      rcases List.mem_append.1 hx with hxm | hxm
      · refine contains_true_of_mem _ x (bytes_to_nbase32_chars k x ?_)
        rw [hbody]
        exact List.mem_cons_of_mem _ hxm
      · exact contains_true_of_mem _ x (bytes_to_nbase32_chars _ x hxm)
  unfold matchNanoAddress pyMatch
  rw [hcore]
  rfl

theorem derive_address_eval (k : List Nat) (hk : ∀ b ∈ k, b < 256) :
    derive_address_from_public_key (hexlifyUpper k) =
      .ok (("nano_").toList ++ bytes_to_nbase32 k ++
        bytes_to_nbase32 ((blake2b CHECKSUM_DIGEST_SIZE_BYTES k).reverse)) := by
  unfold derive_address_from_public_key
  rw [pyUnhexlify_hexlifyUpper k hk]

theorem derive_decode_encoded (k : List Nat) (hlen : k.length = 32)
    (hk : ∀ b ∈ k, b < 256) :
    derive_public_key_from_address (("nano_").toList ++ bytes_to_nbase32 k ++
      bytes_to_nbase32 ((blake2b CHECKSUM_DIGEST_SIZE_BYTES k).reverse)) =
      .ok (hexlifyUpper k) := by
  have hblen : (bytes_to_nbase32 k).length = 52 := by
    rw [bytes_to_nbase32_length, hlen]
  have hcslen : (bytes_to_nbase32 ((blake2b CHECKSUM_DIGEST_SIZE_BYTES k).reverse)).length
      = 8 := by
    rw [bytes_to_nbase32_length, List.length_reverse,
      blake2b_length CHECKSUM_DIGEST_SIZE_BYTES (by norm_num [CHECKSUM_DIGEST_SIZE_BYTES]) k]
    rfl
  have halen : (("nano_").toList ++ bytes_to_nbase32 k ++
      bytes_to_nbase32 ((blake2b CHECKSUM_DIGEST_SIZE_BYTES k).reverse)).length = 65 := by
    simp [hblen, hcslen]
  unfold derive_public_key_from_address
  rw [encoded_address_matches k hlen hk]
  rw [if_neg (by simp)]
  have hpart : ((("nano_").toList ++ bytes_to_nbase32 k ++
      bytes_to_nbase32 ((blake2b CHECKSUM_DIGEST_SIZE_BYTES k).reverse)).drop 5).take
        ((("nano_").toList ++ bytes_to_nbase32 k ++
          bytes_to_nbase32 ((blake2b CHECKSUM_DIGEST_SIZE_BYTES k).reverse)).length - 13) =
      bytes_to_nbase32 k := by
    rw [halen, List.append_assoc, List.drop_left' (by rfl)]
    exact List.take_left' hblen
  have hcs : (("nano_").toList ++ bytes_to_nbase32 k ++
      bytes_to_nbase32 ((blake2b CHECKSUM_DIGEST_SIZE_BYTES k).reverse)).drop
        ((("nano_").toList ++ bytes_to_nbase32 k ++
          bytes_to_nbase32 ((blake2b CHECKSUM_DIGEST_SIZE_BYTES k).reverse)).length - 8) =
      bytes_to_nbase32 ((blake2b CHECKSUM_DIGEST_SIZE_BYTES k).reverse) := by
    rw [halen]
    exact List.drop_left' (by simp [hblen])
  simp only [hpart, hcs, nbase32_roundtrip k hlen hk, ne_eq, not_true_eq_false,
    if_false, ite_false, Bool.false_eq_true]
  simp [CHECKSUM_DIGEST_SIZE_BYTES]

/-- C8: decoding the address produced for any 32-byte public key succeeds
and returns the key: the address passes the format check, the checksum
matches, and the embedded key is recovered exactly. -/
theorem address_roundtrip (k : List Nat) (hlen : k.length = 32)
    (hk : ∀ b ∈ k, b < 256) :
    (derive_address_from_public_key (hexlifyUpper k) >>=
      derive_public_key_from_address) = .ok (hexlifyUpper k) := by
  rw [derive_address_eval k hk, except_ok_bind, derive_decode_encoded k hlen hk]

/-- C8 witness: the all-zero public key round-trips through its address. -/
theorem address_roundtrip_witness :
    (List.replicate 32 0).length = 32 ∧
    (derive_address_from_public_key (hexlifyUpper (List.replicate 32 0)) >>=
      derive_public_key_from_address) = .ok (hexlifyUpper (List.replicate 32 0)) :=
  ⟨rfl, address_roundtrip (List.replicate 32 0) rfl (by decide)⟩

/-! ## Sanity anchors: the blake2b model against RFC 7693 / hashlib vectors -/

theorem blake2b_vector_empty_32 : blake2b 32 [] =
    [0x0e, 0x57, 0x51, 0xc0, 0x26, 0xe5, 0x43, 0xb2, 0xe8, 0xab, 0x2e, 0xb0,
     0x60, 0x99, 0xda, 0xa1, 0xd1, 0xe5, 0xdf, 0x47, 0x77, 0x8f, 0x77, 0x87,
     0xfa, 0xab, 0x45, 0xcd, 0xf1, 0x2f, 0xe3, 0xa8] := by decide

theorem blake2b_vector_abc_8 :
    blake2b 8 [0x61, 0x62, 0x63] = [0xd8, 0xbb, 0x14, 0xd8, 0x33, 0xd5, 0x95, 0x59] := by
  decide

theorem blake2b_vector_zeros_5 :
    blake2b 5 (List.replicate 32 0) = [0xd6, 0x52, 0xa3, 0x1a, 0x7c] := by decide

/-! ## Block hashing layout (C3) -/

/-- C3 counterexample: at a fully well-formed block, the canonical byte
sequence hashed by `create_block_hash` starts with 31 zero bytes and the
marker byte 0x06 in position 31 — its first 32 bytes are NOT 32 zero bytes,
so no 33-byte header of 32 zeros plus a marker can prefix it. -/
theorem create_block_message_header_counterexample :
    (create_block_message blockWellFormed).map (fun m => m.take 32) =
      .ok (List.replicate 31 0 ++ [6]) ∧
    List.replicate 31 0 ++ [6] ≠ List.replicate 32 (0 : Nat) := by
  constructor
  · decide
  · decide

/-- C3 (amended): the canonical byte sequence hashed by `create_block_hash`
is the 32-byte constant header — 31 zero bytes followed by the marker byte
0x06 — followed in order by the 32-byte account public key, the 32-byte
previous, the 32-byte representative public key, the 16-byte big-endian
balance and the 32-byte link payload; the block hash is the 32-byte blake2b
digest of exactly that sequence. -/
theorem create_block_message_layout (block : Block)
    (a r lh : List Char) (acct prev rep bal link : List Nat)
    (ha : derive_public_key_from_address block.account = .ok a)
    (hr : derive_public_key_from_address block.representative = .ok r)
    (hacct : pyUnhexlify a = .ok acct)
    (hprev : pyUnhexlify block.previous = .ok prev)
    (hrep : pyUnhexlify r = .ok rep)
    (hbal : balance_bytes block.balance = .ok bal)
    (hlink : process_link_data block = .ok lh)
    (hlb : pyUnhexlify lh = .ok link) :
    create_block_message block =
      .ok ((List.replicate 31 0 ++ [6]) ++ acct ++ prev ++ rep ++ bal ++ link) ∧
    create_block_hash block =
      .ok (blake2b 32
        ((List.replicate 31 0 ++ [6]) ++ acct ++ prev ++ rep ++ bal ++ link)) := by
  have hmsg : create_block_message block =
      .ok ((List.replicate 31 0 ++ [6]) ++ acct ++ prev ++ rep ++ bal ++ link) := by
    unfold create_block_message
    rw [ha, except_ok_bind, hr, except_ok_bind, hacct, except_ok_bind, hprev,
      except_ok_bind, hrep, except_ok_bind, hbal, except_ok_bind, hlink, except_ok_bind,
      hlb, except_ok_bind, except_pure]
    rw [show STATE_BLOCK_HEADER_BYTES = List.replicate 31 0 ++ [6] from by decide]
  refine ⟨hmsg, ?_⟩
  unfold create_block_hash
  rw [hmsg, except_ok_bind, except_pure]
  rfl

/-- C3 witness: the layout at a concrete well-formed block (all-zero key,
all-zero previous, balance 0, all-zero link). -/
theorem create_block_message_layout_witness :
    create_block_message blockWellFormed =
      .ok ((List.replicate 31 0 ++ [6]) ++ List.replicate 32 0 ++ List.replicate 32 0 ++
        List.replicate 32 0 ++ List.replicate 16 0 ++ List.replicate 32 0) ∧
    create_block_hash blockWellFormed =
      .ok (blake2b 32 ((List.replicate 31 0 ++ [6]) ++ List.replicate 32 0 ++
        List.replicate 32 0 ++ List.replicate 32 0 ++ List.replicate 16 0 ++
        List.replicate 32 0)) :=
  create_block_message_layout blockWellFormed zeros64 zeros64 zeros64
    (List.replicate 32 0) (List.replicate 32 0) (List.replicate 32 0)
    (List.replicate 16 0) (List.replicate 32 0)
    (by decide) (by decide) (by decide) (by decide) (by decide) (by decide) (by decide)
    (by decide)
